import Mathlib

/-!
A shallow embedding of `morse_printer.py` (MorsePrinter): the QSO
conversation-detection state machine, its pure helpers
(`extract_callsigns`, `is_termination`, `contains_callsign`,
`is_valid_response`), the rolling buffer maintained in `main`, and
`load_config`.

Conventions of the embedding:
* Strings are modelled over their character lists; inputs are treated as
  ASCII (the character classes `[A-Z0-9]` under `re.I` and `\w`, and
  `str.upper`, are modelled by their ASCII behaviour).
* Timestamps (`time.time()`) are modelled as integers; the rolling window
  comparison `now - ts > 15.0` becomes `now - ts > 15` over `Int`.
* A "print action" is one `printer.text` call immediately followed by one
  `printer.cut` call, as in the source; the two call sites under filtering
  (lead-in flush and single line) are kept distinct.
* `main`'s per-line loop body (after the upstream `CW:` stripping, which
  belongs to the LineSource collaborator) is modelled as the pure step
  function `process_line` on an explicit state record; the surrounding
  loop is `run`.
-/

namespace MorsePrinter

/-- ASCII upper-casing of a character list, modelling Python `str.upper()`
on ASCII text. -/
def pyUpperList (cs : List Char) : List Char := cs.map Char.toUpper

/-- ASCII upper-casing of a string, modelling Python `str.upper()`. -/
def pyUpper (s : String) : String := ⟨pyUpperList s.data⟩

/-- Python `needle in hay` on strings: substring containment, as a
decidable scan over all start positions. -/
def strContains (hay needle : String) : Bool :=
  (List.range (hay.data.length + 1)).any
    (fun i => decide ((hay.data.drop i).take needle.data.length = needle.data))

/- ------------------------------------------------------------------
   CallsignExtractor: CALLSIGN_REGEX = [A-Z0-9]{1,2}[0-9][A-Z0-9]{1,4}(?:/[A-Z0-9]+)?
   with re.I, applied by re.findall (leftmost, non-overlapping, greedy
   with backtracking), then upper-cased and collected into a set.
   ------------------------------------------------------------------ -/

/-- The character class `[A-Z0-9]` under `re.I`: ASCII letters and digits. -/
def csAlnum (c : Char) : Bool := c.isAlpha || c.isDigit

/-- The optional trailing group `(?:/[A-Z0-9]+)?` of CALLSIGN_REGEX,
applied after the match so far `tk` with remaining input `r3`: it extends
the match only when a `/` followed by at least one alphanumeric is next,
consuming the maximal alphanumeric run (greedy `+`). -/
def matchOpt (tk r3 : List Char) : List Char × List Char :=
  match r3 with
  | [] => (tk, [])
  | c :: r4 =>
    if c = '/' then
      let run2 := r4.takeWhile csAlnum
      if run2.isEmpty then (tk, c :: r4)
      else (tk ++ c :: run2, r4.dropWhile csAlnum)
    else (tk, c :: r4)

/-- Matches the regex part after the leading `[A-Z0-9]{1,2}`:
`[0-9][A-Z0-9]{1,4}(?:/[A-Z0-9]+)?`.  Returns the consumed characters and
the remaining input.  `[A-Z0-9]{1,4}` is greedy; the trailing optional
group can match empty, so the greedy maximum (up to 4) always stands. -/
def matchAfterN1 (cs : List Char) : Option (List Char × List Char) :=
  match cs with
  | [] => none
  | d :: r =>
    if d.isDigit then
      let run := r.takeWhile csAlnum
      if run.isEmpty then none
      else
        let p := matchOpt (run.take 4) (run.drop 4 ++ r.dropWhile csAlnum)
        some (d :: p.1, p.2)
    else none

/-- The two-character attempt for the leading `[A-Z0-9]{1,2}` (the greedy
first choice): `a` is the first matched character, `rest` the input after
it; a second alphanumeric is consumed before `matchAfterN1`. -/
def matchAtTwo (a : Char) (rest : List Char) : Option (List Char × List Char) :=
  match rest with
  | [] => none
  | b :: r2 =>
    if csAlnum b then (matchAfterN1 r2).map (fun p => (a :: b :: p.1, p.2))
    else none

/-- Attempt to match CALLSIGN_REGEX at the head of `cs`.  The leading
`[A-Z0-9]{1,2}` is greedy: two characters are tried first and the engine
backtracks to one if the rest of the pattern fails. -/
def matchAt (cs : List Char) : Option (List Char × List Char) :=
  match cs with
  | [] => none
  | a :: rest =>
    if csAlnum a then
      match matchAtTwo a rest with
      | some res => some res
      | none => (matchAfterN1 rest).map (fun p => (a :: p.1, p.2))
    else none

theorem dropWhile_length_le (p : Char → Bool) (l : List Char) :
    (l.dropWhile p).length ≤ l.length :=
  (List.dropWhile_sublist p (l := l)).length_le

theorem matchOpt_rest_le (tk r3 : List Char) :
    (matchOpt tk r3).2.length ≤ r3.length := by
  cases r3 with
  | nil => simp [matchOpt]
  | cons c r4 =>
    simp only [matchOpt]
    split_ifs with hc hr
    · simp
    · have := dropWhile_length_le csAlnum r4
      simp only [List.length_cons]
      omega
    · simp

theorem matchAfterN1_rest_le (cs m rst : List Char)
    (h : matchAfterN1 cs = some (m, rst)) : rst.length ≤ cs.length := by
  cases cs with
  | nil => simp [matchAfterN1] at h
  | cons d r =>
    simp only [matchAfterN1] at h
    by_cases hd : d.isDigit = true
    · rw [if_pos hd] at h
      by_cases hrun : (r.takeWhile csAlnum).isEmpty = true
      · rw [if_pos hrun] at h; exact absurd h (by simp)
      · rw [if_neg hrun] at h
        rw [Option.some.injEq, Prod.mk.injEq] at h
        have hrst : rst = (matchOpt ((r.takeWhile csAlnum).take 4)
            ((r.takeWhile csAlnum).drop 4 ++ r.dropWhile csAlnum)).2 := h.2.symm
        have hsplit : (r.takeWhile csAlnum).length + (r.dropWhile csAlnum).length
            = r.length := by
          conv_rhs => rw [← List.takeWhile_append_dropWhile (p := csAlnum) (l := r)]
          rw [List.length_append]
        have h3le : ((r.takeWhile csAlnum).drop 4 ++ r.dropWhile csAlnum).length
            ≤ r.length := by
          rw [List.length_append, List.length_drop]
          omega
        have := matchOpt_rest_le ((r.takeWhile csAlnum).take 4)
          ((r.takeWhile csAlnum).drop 4 ++ r.dropWhile csAlnum)
        rw [hrst]
        simp only [List.length_cons]
        omega
    · rw [if_neg hd] at h; exact absurd h (by simp)

theorem matchAtTwo_rest_le (a : Char) (rest m rst : List Char)
    (h : matchAtTwo a rest = some (m, rst)) : rst.length ≤ rest.length := by
  cases rest with
  | nil => simp [matchAtTwo] at h
  | cons b r2 =>
    simp only [matchAtTwo] at h
    by_cases hb : csAlnum b = true
    · rw [if_pos hb, Option.map_eq_some'] at h
      obtain ⟨⟨m1, rst1⟩, hm, hp⟩ := h
      have hlen := matchAfterN1_rest_le r2 m1 rst1 hm
      rw [Prod.mk.injEq] at hp
      obtain ⟨_, hrst⟩ := hp
      rw [← hrst]
      simp only [List.length_cons]
      omega
    · rw [if_neg hb] at h; exact absurd h (by simp)

theorem matchAt_rest_lt (cs m rst : List Char)
    (h : matchAt cs = some (m, rst)) : rst.length < cs.length := by
  cases cs with
  | nil => simp [matchAt] at h
  | cons a rest =>
    simp only [matchAt] at h
    by_cases ha : csAlnum a = true
    · rw [if_pos ha] at h
      cases h2 : matchAtTwo a rest with
      | some res =>
        rw [h2] at h
        have hres : res = (m, rst) := by injection h
        rw [hres] at h2
        have := matchAtTwo_rest_le a rest m rst h2
        simp only [List.length_cons]
        omega
      | none =>
        rw [h2] at h
        rw [Option.map_eq_some'] at h
        obtain ⟨⟨m1, rst1⟩, hm, hp⟩ := h
        have hlen := matchAfterN1_rest_le rest m1 rst1 hm
        rw [Prod.mk.injEq] at hp
        obtain ⟨_, hrst⟩ := hp
        rw [← hrst]
        simp only [List.length_cons]
        omega
    · rw [if_neg ha] at h; exact absurd h (by simp)

/-- `re.findall` for CALLSIGN_REGEX: scan left to right; on a match,
record it and resume after its end (non-overlapping); otherwise advance
one character.  The scan is driven by a structural fuel so it computes
by kernel reduction; `findAllAux_fuel` shows any fuel at least the input
length gives the same result, so the fuel is not an approximation. -/
def findAllAux : Nat → List Char → List (List Char)
  | 0, _ => []
  | _ + 1, [] => []
  | fuel + 1, a :: rest =>
    match matchAt (a :: rest) with
    | some (m, rst) => m :: findAllAux fuel rst
    | none => findAllAux fuel rest

theorem findAllAux_fuel (fuel1 : Nat) :
    ∀ (fuel2 : Nat) (cs : List Char), cs.length ≤ fuel1 → cs.length ≤ fuel2 →
      findAllAux fuel1 cs = findAllAux fuel2 cs := by
  induction fuel1 with
  | zero =>
    intro fuel2 cs h1 _
    have : cs = [] := List.length_eq_zero.mp (Nat.le_zero.mp h1)
    subst this
    cases fuel2 <;> rfl
  | succ f1 ih =>
    intro fuel2 cs h1 h2
    cases cs with
    | nil => cases fuel2 <;> rfl
    | cons a rest =>
      cases fuel2 with
      | zero => simp at h2
      | succ f2 =>
        simp only [findAllAux]
        cases hm : matchAt (a :: rest) with
        | some p =>
          obtain ⟨m, rst⟩ := p
          have hlt := matchAt_rest_lt (a :: rest) m rst hm
          simp only [List.length_cons] at h1 h2 hlt
          show m :: findAllAux f1 rst = m :: findAllAux f2 rst
          rw [ih f2 rst (by omega) (by omega)]
        | none =>
          simp only [List.length_cons] at h1 h2
          show findAllAux f1 rest = findAllAux f2 rest
          rw [ih f2 rest (by omega) (by omega)]

/-- The scan entry point, with exactly enough fuel. -/
def findAll (cs : List Char) : List (List Char) :=
  findAllAux cs.length cs

/-- `extract_callsigns(text)`: the set of unique upper-cased matches of
CALLSIGN_REGEX in `text`, modelled as a duplicate-free list (first
occurrences kept; only membership matters). -/
def extract_callsigns (text : String) : List String :=
  ((findAll text.data).map (fun m => (⟨pyUpperList m⟩ : String))).dedup

/- ------------------------------------------------------------------
   TerminationDetector: TERMINATION_REGEX = \b(tok1|...|tokN)\b with
   re.I, used through re.search (boolean).  The tokens come from a
   Python set, whose iteration order is unspecified, but the boolean
   result of search over an alternation is order-independent: it holds
   iff some token matches at some position with word boundaries.
   ------------------------------------------------------------------ -/

/-- TERMINATION_TOKENS of the source, as a list (the membership-relevant
content of the Python set). -/
def TERMINATION_TOKENS : List String :=
  ["73", "SK", "RR", "END OF CALL", "END OF CONTACT",
   "DIT DIT", "DIT DIT DIT", "DE", "73+", "73!"]

/-- A `\w` word character (ASCII): letters, digits, underscore. -/
def isWordChar (c : Char) : Bool := c.isAlphanum || c = '_'

/-- `\b` of Python `re` at position `p` of `cs`: exactly one of the
character before `p` and the character at `p` is a word character
(string edges count as non-word). -/
def wordBoundary (cs : List Char) (p : Nat) : Bool :=
  let left : Bool := if h : p = 0 then false else
    match cs[p - 1]? with
    | some c => isWordChar c
    | none => false
  let right : Bool := match cs[p]? with
    | some c => isWordChar c
    | none => false
  left != right

/-- Does token `tok` match in `cs` at position `i`, case-insensitively,
with `\b` on both sides? -/
def matchTokenAt (cs : List Char) (i : Nat) (tok : List Char) : Bool :=
  decide (pyUpperList ((cs.drop i).take tok.length) = tok) &&
    wordBoundary cs i && wordBoundary cs (i + tok.length)

/-- `is_termination(line)`: `bool(TERMINATION_REGEX.search(line))`,
i.e. some termination token occurs somewhere in the line as a whole
word, case-insensitively. -/
def is_termination (line : String) : Bool :=
  (List.range (line.data.length + 1)).any (fun i =>
    TERMINATION_TOKENS.any (fun t => matchTokenAt line.data i t.data))

/- ------------------------------------------------------------------
   Configuration: DEFAULTS and load_config.  The source reads
   config.yaml; the embedding takes the outcome of that read as a
   parameter: `none` models a missing file or a read/parse failure
   (both return the defaults), `some u` models the parsed user mapping
   restricted to the two keys the conversation logic consults.  The
   remaining keys (frequency_hz, gain, printer_*) are merged
   independently per key and never interact with these two.
   ------------------------------------------------------------------ -/

/-- The filtering-relevant part of the configuration dictionary. -/
structure Config where
  filter_enabled : Bool
  call_sign : String
deriving DecidableEq, Repr

/-- The filtering-relevant DEFAULTS entries. -/
def DEFAULTS : Config := { filter_enabled := false, call_sign := "" }

/-- A user-supplied config.yaml mapping, restricted to the
filtering-relevant keys; `none` means the key is absent. -/
structure UserConfig where
  filter_enabled : Option Bool
  call_sign : Option String
deriving DecidableEq, Repr

/-- `load_config()`: start from DEFAULTS and override each key present
in the user mapping with the user's value (`call_sign` is not a
`printer_`-prefixed key, so no hex cast applies; the value is stored
exactly as supplied). -/
def load_config (user : Option UserConfig) : Config :=
  match user with
  | none => DEFAULTS
  | some u =>
    { filter_enabled := u.filter_enabled.getD DEFAULTS.filter_enabled,
      call_sign := u.call_sign.getD DEFAULTS.call_sign }

/- ------------------------------------------------------------------
   contains_callsign and is_valid_response.
   ------------------------------------------------------------------ -/

/-- `contains_callsign(line, cfg)`: false when filtering is off or the
configured call sign is empty (Python falsiness of `""`); otherwise
substring containment of the stored call sign in the upper-cased line. -/
def contains_callsign (line : String) (cfg : Config) : Bool :=
  if !cfg.filter_enabled || cfg.call_sign = "" then false
  else strContains (pyUpper line) cfg.call_sign

/-- The extracted callsigns of a line with the configured call sign
discarded (`all_calls.discard(cfg["call_sign"])`). -/
def foreign_calls (line : String) (cfg : Config) : List String :=
  (extract_callsigns line).filter (fun c => c ≠ cfg.call_sign)

/-- `is_valid_response(line, cfg)`: the line carries at least one
callsign different from the configured one. -/
def is_valid_response (line : String) (cfg : Config) : Bool :=
  !(foreign_calls line cfg).isEmpty

/- ------------------------------------------------------------------
   The state of main's loop: the rolling buffer (timestamp, line) and
   the two flags.  `ROLLING_WINDOW = 15.0` seconds.
   ------------------------------------------------------------------ -/

/-- `ROLLING_WINDOW` of the source (seconds). -/
def ROLLING_WINDOW : Int := 15

/-- The mutable state of `main`'s loop. -/
structure MachineState where
  rolling_buffer : List (Int × String)
  awaiting_response : Bool
  printing_active : Bool
deriving DecidableEq, Repr

/-- The state at the top of `main`: empty buffer, both flags false. -/
def initState : MachineState :=
  { rolling_buffer := [], awaiting_response := false, printing_active := false }

/-- The three conversation states of the spec, as an abstraction of the
two flags (the source never sets both at once). -/
inductive ConvState where
  | Idle
  | AwaitingResponse
  | Active
deriving DecidableEq, Repr

/-- The spec-level conversation state read off the two flags. -/
def convState (st : MachineState) : ConvState :=
  if st.printing_active then .Active
  else if st.awaiting_response then .AwaitingResponse
  else .Idle

/-- One print action: one `printer.text` call immediately followed by
one `printer.cut`.  The two filtering call sites are kept distinct:
`leadIn ls` is the flush `printer.text("\n".join(lead_in) + "\n")` of a
(non-empty) buffered block, `line s` is `printer.text(msg + "\n")` for
a single line. -/
inductive PrintAction where
  | leadIn (ls : List String)
  | line (s : String)
deriving DecidableEq, Repr

/-- The eviction loop
`while rolling_buffer and now - rolling_buffer[0][0] > ROLLING_WINDOW:
rolling_buffer.popleft()`. -/
def evict (buf : List (Int × String)) (now : Int) : List (Int × String) :=
  match buf with
  | [] => []
  | (t, s) :: rest =>
    if now - t > ROLLING_WINDOW then evict rest now else (t, s) :: rest

/-- The loop body of `main` for one decoded line `msg` at time `now`:
returns the state after the line and the print actions attempted for
it, in order.  This is the code from the `if not cfg["filter_enabled"]`
check to the end of the loop body. -/
def process_line (cfg : Config) (st : MachineState) (now : Int) (msg : String) :
    MachineState × List PrintAction :=
  if !cfg.filter_enabled then
    (st, [.line msg])
  else
    let buf := evict (st.rolling_buffer ++ [(now, msg)]) now
    if !st.printing_active then
      if st.awaiting_response then
        if is_valid_response msg cfg then
          let lead_in := (buf.filter
            (fun p => !contains_callsign p.2 cfg)).map (fun p => p.2)
          ({ rolling_buffer := buf, awaiting_response := false,
             printing_active := true },
           (if !lead_in.isEmpty then [.leadIn lead_in] else []) ++ [.line msg])
        else
          ({ st with rolling_buffer := buf }, [])
      else
        if contains_callsign msg cfg then
          ({ st with rolling_buffer := buf, awaiting_response := true }, [])
        else
          ({ st with rolling_buffer := buf }, [])
    else
      if is_termination msg then
        ({ rolling_buffer := [], awaiting_response := false,
           printing_active := false }, [.line msg])
      else
        ({ st with rolling_buffer := buf }, [.line msg])

/-- `main`'s loop over a list of (timestamp, line) pairs: the final
state and all print actions in order. -/
def run (cfg : Config) (st : MachineState) :
    List (Int × String) → MachineState × List PrintAction
  | [] => (st, [])
  | (now, msg) :: rest =>
    let step := process_line cfg st now msg
    let tail := run cfg step.1 rest
    (tail.1, step.2 ++ tail.2)

/-- The machine state after the first `n` lines of `lines`, starting
from `initState`. -/
def stateAt (cfg : Config) (lines : List (Int × String)) (n : Nat) : MachineState :=
  (run cfg initState (lines.take n)).1

/-- The loop body with the PrintSink outcomes made explicit: `fails k`
tells whether the `k`-th print action attempted for this line raises.
Every `printer.text`/`printer.cut` pair in the source sits inside a
`try/except` whose handler only writes to stderr, so the decision logic
is the same code as `process_line`, with each attempted action paired
with its outcome; no branch consults an outcome. -/
def process_line_sink (cfg : Config) (st : MachineState) (now : Int) (msg : String)
    (fails : Nat → Bool) : MachineState × List (PrintAction × Bool) :=
  if !cfg.filter_enabled then
    (st, [(.line msg, fails 0)])
  else
    let buf := evict (st.rolling_buffer ++ [(now, msg)]) now
    if !st.printing_active then
      if st.awaiting_response then
        if is_valid_response msg cfg then
          let lead_in := (buf.filter
            (fun p => !contains_callsign p.2 cfg)).map (fun p => p.2)
          let flush := if !lead_in.isEmpty then [(PrintAction.leadIn lead_in, fails 0)] else []
          ({ rolling_buffer := buf, awaiting_response := false,
             printing_active := true },
           flush ++ [(.line msg, fails flush.length)])
        else
          ({ st with rolling_buffer := buf }, [])
      else
        if contains_callsign msg cfg then
          ({ st with rolling_buffer := buf, awaiting_response := true }, [])
        else
          ({ st with rolling_buffer := buf }, [])
    else
      if is_termination msg then
        ({ rolling_buffer := [], awaiting_response := false,
           printing_active := false }, [(.line msg, fails 0)])
      else
        ({ st with rolling_buffer := buf }, [(.line msg, fails 0)])

/-- `main`'s loop with sink outcomes made explicit: `F i k` tells
whether the `k`-th print attempted while processing line `i` raises. -/
def run_sink (cfg : Config) (st : MachineState) :
    List (Int × String) → (Nat → Nat → Bool) → MachineState × List (PrintAction × Bool)
  | [], _ => (st, [])
  | (now, msg) :: rest, F =>
    let step := process_line_sink cfg st now msg (F 0)
    let tail := run_sink cfg step.1 rest (fun i => F (i + 1))
    (tail.1, step.2 ++ tail.2)

/- ------------------------------------------------------------------
   Helper lemmas about the conversation-state abstraction, the run
   function and the eviction loop.
   ------------------------------------------------------------------ -/

theorem convState_active_iff (st : MachineState) :
    convState st = ConvState.Active ↔ st.printing_active = true := by
  cases hp : st.printing_active <;> cases ha : st.awaiting_response <;>
    simp [convState, hp, ha]

theorem convState_awaiting_iff (st : MachineState) :
    convState st = ConvState.AwaitingResponse ↔
      st.printing_active = false ∧ st.awaiting_response = true := by
  cases hp : st.printing_active <;> cases ha : st.awaiting_response <;>
    simp [convState, hp, ha]

theorem convState_idle_iff (st : MachineState) :
    convState st = ConvState.Idle ↔
      st.printing_active = false ∧ st.awaiting_response = false := by
  cases hp : st.printing_active <;> cases ha : st.awaiting_response <;>
    simp [convState, hp, ha]

theorem run_append (cfg : Config) (st : MachineState)
    (l1 l2 : List (Int × String)) :
    run cfg st (l1 ++ l2) =
      ((run cfg (run cfg st l1).1 l2).1,
       (run cfg st l1).2 ++ (run cfg (run cfg st l1).1 l2).2) := by
  induction l1 generalizing st with
  | nil => simp [run]
  | cons a l1 ih =>
    obtain ⟨now, msg⟩ := a
    simp [run, ih]

theorem stateAt_succ (cfg : Config) (lines : List (Int × String)) (n : Nat) :
    stateAt cfg lines (n + 1) =
      match lines[n]? with
      | some (now, msg) => (process_line cfg (stateAt cfg lines n) now msg).1
      | none => stateAt cfg lines n := by
  unfold stateAt
  rw [List.take_succ]
  cases h : lines[n]? with
  | none => simp [run_append]
  | some a =>
    obtain ⟨now, msg⟩ := a
    simp [run_append, run]

theorem evict_sublist (buf : List (Int × String)) (now : Int) :
    (evict buf now).Sublist buf := by
  induction buf with
  | nil => simp [evict]
  | cons a rest ih =>
    obtain ⟨t, s⟩ := a
    simp only [evict]
    split_ifs with h
    · exact ih.trans (List.sublist_cons_self _ _)
    · exact List.Sublist.refl _

theorem evict_fresh (buf : List (Int × String)) (now : Int)
    (hsort : buf.Pairwise (fun a b => a.1 ≤ b.1)) :
    ∀ e ∈ evict buf now, now - e.1 ≤ ROLLING_WINDOW := by
  induction buf with
  | nil => simp [evict]
  | cons a rest ih =>
    obtain ⟨t, s⟩ := a
    rw [List.pairwise_cons] at hsort
    simp only [evict]
    split_ifs with h
    · exact ih hsort.2
    · intro e he
      rcases List.mem_cons.mp he with rfl | hmem
      · omega
      · have := hsort.1 e hmem
        simp only at this
        omega

theorem evict_last_mem (buf : List (Int × String)) (now : Int) (s : String) :
    (now, s) ∈ evict (buf ++ [(now, s)]) now := by
  induction buf with
  | nil =>
    simp only [List.nil_append, evict]
    have : ¬(now - now > ROLLING_WINDOW) := by simp [ROLLING_WINDOW]
    rw [if_neg this]
    exact List.mem_singleton.mpr rfl
  | cons a rest ih =>
    obtain ⟨t, x⟩ := a
    simp only [List.cons_append, evict]
    split_ifs with h
    · exact ih
    · exact List.mem_cons_of_mem _ (List.mem_append_right _ (List.mem_singleton.mpr rfl))

/-- Well-formedness of the rolling buffer relative to the latest
observed time `t`: timestamps are non-decreasing along the buffer and
none exceeds `t`. -/
def BufferWF (buf : List (Int × String)) (t : Int) : Prop :=
  buf.Pairwise (fun a b => a.1 ≤ b.1) ∧ ∀ e ∈ buf, e.1 ≤ t

theorem bufferWF_nil (t : Int) : BufferWF [] t :=
  ⟨List.Pairwise.nil, by simp⟩

/-- With filtering enabled, one loop iteration leaves the buffer either
as the evicted append or cleared. -/
theorem process_line_buffer_cases (cfg : Config) (st : MachineState)
    (now : Int) (msg : String) (hf : cfg.filter_enabled = true) :
    (process_line cfg st now msg).1.rolling_buffer
        = evict (st.rolling_buffer ++ [(now, msg)]) now ∨
      (process_line cfg st now msg).1.rolling_buffer = [] := by
  cases hfe : cfg.filter_enabled <;> cases hp : st.printing_active <;>
    cases hw : st.awaiting_response <;>
    cases hv : is_valid_response msg cfg <;>
    cases ht : is_termination msg <;>
    cases hc : contains_callsign msg cfg <;>
    simp_all [process_line]

theorem bufferWF_step (cfg : Config) (st : MachineState) (now : Int)
    (msg : String) (hf : cfg.filter_enabled = true) (t : Int)
    (hwf : BufferWF st.rolling_buffer t) (hle : t ≤ now) :
    BufferWF (process_line cfg st now msg).1.rolling_buffer now ∧
      ∀ e ∈ (process_line cfg st now msg).1.rolling_buffer,
        now - e.1 ≤ ROLLING_WINDOW := by
  rcases process_line_buffer_cases cfg st now msg hf with hb | hb
  · rw [hb]
    have hpw : (st.rolling_buffer ++ [(now, msg)]).Pairwise
        (fun a b => a.1 ≤ b.1) := by
      rw [List.pairwise_append]
      refine ⟨hwf.1, List.pairwise_singleton _ _, ?_⟩
      intro a ha b hb
      rw [List.mem_singleton] at hb
      subst hb
      exact le_trans (hwf.2 a ha) hle
    have hsub := evict_sublist (st.rolling_buffer ++ [(now, msg)]) now
    refine ⟨⟨List.Pairwise.sublist hsub hpw, ?_⟩, evict_fresh _ _ hpw⟩
    intro e he
    rcases List.mem_append.mp (hsub.mem he) with h | h
    · exact le_trans (hwf.2 e h) hle
    · rw [List.mem_singleton] at h
      subst h
      exact le_refl _
  · rw [hb]
    exact ⟨bufferWF_nil now, by simp⟩

/-- One loop iteration can move the machine into `Active` only from
`Active` itself or from `AwaitingResponse` on a valid response. -/
theorem step_to_active (cfg : Config) (st : MachineState) (now : Int)
    (msg : String)
    (h : convState (process_line cfg st now msg).1 = ConvState.Active) :
    convState st = ConvState.Active ∨
      (convState st = ConvState.AwaitingResponse ∧
        is_valid_response msg cfg = true) := by
  cases hfe : cfg.filter_enabled <;> cases hp : st.printing_active <;>
    cases hw : st.awaiting_response <;>
    cases hv : is_valid_response msg cfg <;>
    cases ht : is_termination msg <;>
    cases hc : contains_callsign msg cfg <;>
    simp_all [process_line, convState]

/-- One loop iteration can move the machine into `AwaitingResponse`
only from `AwaitingResponse` itself or from `Idle` on a line containing
the configured call sign. -/
theorem step_to_awaiting (cfg : Config) (st : MachineState) (now : Int)
    (msg : String)
    (h : convState (process_line cfg st now msg).1 = ConvState.AwaitingResponse) :
    convState st = ConvState.AwaitingResponse ∨
      (convState st = ConvState.Idle ∧ contains_callsign msg cfg = true) := by
  cases hfe : cfg.filter_enabled <;> cases hp : st.printing_active <;>
    cases hw : st.awaiting_response <;>
    cases hv : is_valid_response msg cfg <;>
    cases ht : is_termination msg <;>
    cases hc : contains_callsign msg cfg <;>
    simp_all [process_line, convState]

/-- With filtering on and an empty configured call sign, no line ever
contains the call sign (Python falsiness of the empty string). -/
theorem contains_callsign_empty (cfg : Config) (hcs : cfg.call_sign = "")
    (line : String) : contains_callsign line cfg = false := by
  simp [contains_callsign, hcs]

/-- From an idle state, with filtering enabled and an empty call sign,
the whole run stays idle and prints nothing. -/
theorem idle_run_aux (cfg : Config) (hf : cfg.filter_enabled = true)
    (hcs : cfg.call_sign = "") :
    ∀ (lines : List (Int × String)) (st : MachineState),
      st.printing_active = false → st.awaiting_response = false →
      (run cfg st lines).2 = [] ∧
      (run cfg st lines).1.printing_active = false ∧
      (run cfg st lines).1.awaiting_response = false := by
  intro lines
  induction lines with
  | nil => intro st hp hw; exact ⟨rfl, hp, hw⟩
  | cons a rest ih =>
    intro st hp hw
    obtain ⟨now, msg⟩ := a
    have hstep : process_line cfg st now msg =
        (MachineState.mk (evict (st.rolling_buffer ++ [(now, msg)]) now)
          st.awaiting_response st.printing_active, []) := by
      simp [process_line, hf, hp, hw, contains_callsign_empty cfg hcs]
    have := ih (MachineState.mk (evict (st.rolling_buffer ++ [(now, msg)]) now)
      st.awaiting_response st.printing_active) hp hw
    simp only [run, hstep]
    simpa using this

end MorsePrinter

namespace MorsePrinter

/-- C1 (Scenario A): with filtering enabled and target "W1ABC", from the
initial idle state the lines "CQ CQ DE W1ABC" at t=0 and "QRL?" at t=2
print nothing (the first moves the machine to AwaitingResponse, the
second leaves it there), and "W1ABC DE K2XYZ" at t=4 emits exactly the
lead-in block ["QRL?"] followed by the line itself, moving to Active. -/
theorem claim_C1 :
    (run ⟨true, "W1ABC"⟩ initState [((0 : Int), "CQ CQ DE W1ABC")]).2 = [] ∧
    convState (run ⟨true, "W1ABC"⟩ initState
      [((0 : Int), "CQ CQ DE W1ABC")]).1 = ConvState.AwaitingResponse ∧
    (run ⟨true, "W1ABC"⟩ initState
      [((0 : Int), "CQ CQ DE W1ABC"), (2, "QRL?")]).2 = [] ∧
    convState (run ⟨true, "W1ABC"⟩ initState
      [((0 : Int), "CQ CQ DE W1ABC"), (2, "QRL?")]).1
      = ConvState.AwaitingResponse ∧
    (run ⟨true, "W1ABC"⟩ initState
      [((0 : Int), "CQ CQ DE W1ABC"), (2, "QRL?"), (4, "W1ABC DE K2XYZ")]).2
      = [PrintAction.leadIn ["QRL?"], PrintAction.line "W1ABC DE K2XYZ"] ∧
    convState (run ⟨true, "W1ABC"⟩ initState
      [((0 : Int), "CQ CQ DE W1ABC"), (2, "QRL?"), (4, "W1ABC DE K2XYZ")]).1
      = ConvState.Active := by
  decide

/-- C2: with filtering enabled, in the Active state every line is
printed as exactly one print action; on a termination line the machine
resets to Idle with the buffer cleared, otherwise it stays Active. -/
theorem claim_C2 (cfg : Config) (st : MachineState) (now : Int) (msg : String)
    (hf : cfg.filter_enabled = true)
    (ha : convState st = ConvState.Active) :
    (process_line cfg st now msg).2 = [PrintAction.line msg] ∧
    (is_termination msg = true →
      convState (process_line cfg st now msg).1 = ConvState.Idle ∧
      (process_line cfg st now msg).1.rolling_buffer = []) ∧
    (is_termination msg = false →
      convState (process_line cfg st now msg).1 = ConvState.Active) := by
  rw [convState_active_iff] at ha
  cases ht : is_termination msg <;>
    simp [process_line, hf, ha, ht, convState]

/-- C2 witness (Scenario B): continuing Scenario A, "73 SK" at t=6 is
printed and resets the machine to Idle with an empty buffer. -/
theorem claim_C2_witness :
    (process_line ⟨true, "W1ABC"⟩
      ⟨[((0 : Int), "CQ CQ DE W1ABC"), (2, "QRL?"), (4, "W1ABC DE K2XYZ")],
        false, true⟩ 6 "73 SK").2 = [PrintAction.line "73 SK"] ∧
    is_termination "73 SK" = true ∧
    convState (process_line ⟨true, "W1ABC"⟩
      ⟨[((0 : Int), "CQ CQ DE W1ABC"), (2, "QRL?"), (4, "W1ABC DE K2XYZ")],
        false, true⟩ 6 "73 SK").1 = ConvState.Idle ∧
    (process_line ⟨true, "W1ABC"⟩
      ⟨[((0 : Int), "CQ CQ DE W1ABC"), (2, "QRL?"), (4, "W1ABC DE K2XYZ")],
        false, true⟩ 6 "73 SK").1.rolling_buffer = [] := by
  have h := claim_C2 ⟨true, "W1ABC"⟩
    ⟨[((0 : Int), "CQ CQ DE W1ABC"), (2, "QRL?"), (4, "W1ABC DE K2XYZ")],
      false, true⟩ 6 "73 SK" rfl rfl
  exact ⟨h.1, by decide, (h.2.1 (by decide)).1, (h.2.1 (by decide)).2⟩

/-- C3 counterexample: `load_config` does not upper-case the supplied
call_sign; a lower-case "w1abc" is not stored as its upper-cased form. -/
theorem claim_C3_cex :
    ¬((load_config (some ⟨some true, some "w1abc"⟩)).call_sign
        = pyUpper "w1abc") := by
  decide

/-- C3 (amended): `load_config` stores a supplied call_sign string
exactly as given; no case normalization happens at load time. -/
theorem claim_C3 (u : UserConfig) (s : String) (h : u.call_sign = some s) :
    (load_config (some u)).call_sign = s := by
  simp [load_config, h]

/-- C3 witness: a mixed-case supplied call sign is stored verbatim. -/
theorem claim_C3_witness :
    (⟨some true, some "w1abc"⟩ : UserConfig).call_sign = some "w1abc" ∧
    (load_config (some ⟨some true, some "w1abc"⟩)).call_sign = "w1abc" :=
  ⟨rfl, claim_C3 _ _ rfl⟩

/-- C4: with filtering disabled, every line is printed as exactly one
print action, in arrival order, with state and buffer untouched. -/
theorem claim_C4 (cfg : Config) (hf : cfg.filter_enabled = false) :
    (∀ st now msg, process_line cfg st now msg = (st, [PrintAction.line msg])) ∧
    (∀ st lines, run cfg st lines =
      (st, lines.map (fun p => PrintAction.line p.2))) := by
  have hstep : ∀ (st : MachineState) (now : Int) (msg : String),
      process_line cfg st now msg = (st, [PrintAction.line msg]) := by
    intro st now msg
    simp [process_line, hf]
  refine ⟨hstep, ?_⟩
  intro st lines
  induction lines generalizing st with
  | nil => simp [run]
  | cons a rest ih =>
    obtain ⟨now, msg⟩ := a
    simp [run, hstep, ih]

/-- C4 witness: two lines under a disabled filter print in order and
leave the initial state unchanged. -/
theorem claim_C4_witness :
    run ⟨false, "W1ABC"⟩ initState [((0 : Int), "CQ CQ DE W1ABC"), (2, "QRL?")]
      = (initState, [PrintAction.line "CQ CQ DE W1ABC", PrintAction.line "QRL?"]) := by
  simpa using (claim_C4 ⟨false, "W1ABC"⟩ rfl).2 initState
    [((0 : Int), "CQ CQ DE W1ABC"), (2, "QRL?")]

/-- Whenever the machine is in AwaitingResponse, some earlier line took
it from Idle to AwaitingResponse and contained the configured call
sign. -/
theorem awaiting_has_idle_transition (cfg : Config)
    (lines : List (Int × String)) :
    ∀ n, convState (stateAt cfg lines n) = ConvState.AwaitingResponse →
      ∃ k, k < n ∧
        convState (stateAt cfg lines k) = ConvState.Idle ∧
        convState (stateAt cfg lines (k + 1)) = ConvState.AwaitingResponse ∧
        ∃ now msg, lines[k]? = some (now, msg) ∧
          contains_callsign msg cfg = true := by
  intro n
  induction n with
  | zero =>
    intro h
    simp [stateAt, run, initState, convState] at h
  | succ n ih =>
    intro h
    rw [stateAt_succ] at h
    cases hl : lines[n]? with
    | none =>
      rw [hl] at h
      obtain ⟨k, hk, hrest⟩ := ih h
      exact ⟨k, Nat.lt_succ_of_lt hk, hrest⟩
    | some a =>
      obtain ⟨now, msg⟩ := a
      rw [hl] at h
      rcases step_to_awaiting cfg _ now msg h with hprev | ⟨hidle, hcont⟩
      · obtain ⟨k, hk, hrest⟩ := ih hprev
        exact ⟨k, Nat.lt_succ_of_lt hk, hrest⟩
      · refine ⟨n, Nat.lt_succ_self n, hidle, ?_, now, msg, hl, hcont⟩
        rw [stateAt_succ, hl]
        exact h

/-- Whenever the machine is in Active, some earlier line took it from
AwaitingResponse to Active and was a valid response. -/
theorem active_has_awaiting_transition (cfg : Config)
    (lines : List (Int × String)) :
    ∀ n, convState (stateAt cfg lines n) = ConvState.Active →
      ∃ i, i < n ∧
        convState (stateAt cfg lines i) = ConvState.AwaitingResponse ∧
        convState (stateAt cfg lines (i + 1)) = ConvState.Active ∧
        ∃ now msg, lines[i]? = some (now, msg) ∧
          is_valid_response msg cfg = true := by
  intro n
  induction n with
  | zero =>
    intro h
    simp [stateAt, run, initState, convState] at h
  | succ n ih =>
    intro h
    rw [stateAt_succ] at h
    cases hl : lines[n]? with
    | none =>
      rw [hl] at h
      obtain ⟨i, hi, hrest⟩ := ih h
      exact ⟨i, Nat.lt_succ_of_lt hi, hrest⟩
    | some a =>
      obtain ⟨now, msg⟩ := a
      rw [hl] at h
      rcases step_to_active cfg _ now msg h with hprev | ⟨hawait, hvalid⟩
      · obtain ⟨i, hi, hrest⟩ := ih hprev
        exact ⟨i, Nat.lt_succ_of_lt hi, hrest⟩
      · refine ⟨n, Nat.lt_succ_self n, hawait, ?_, now, msg, hl, hvalid⟩
        rw [stateAt_succ, hl]
        exact h

/-- C7: starting from Idle with filtering enabled, the machine is
Active only as the result of an AwaitingResponse-to-Active transition
taken on a valid-response line, itself preceded by an earlier
Idle-to-AwaitingResponse transition taken on a line containing the
target; and Active is never entered directly from Idle. -/
theorem claim_C7 (cfg : Config) (lines : List (Int × String))
    (hf : cfg.filter_enabled = true) :
    (∀ n, convState (stateAt cfg lines n) = ConvState.Active →
      ∃ i, i < n ∧
        convState (stateAt cfg lines i) = ConvState.AwaitingResponse ∧
        convState (stateAt cfg lines (i + 1)) = ConvState.Active ∧
        (∃ now msg, lines[i]? = some (now, msg) ∧
          is_valid_response msg cfg = true) ∧
        ∃ k, k < i ∧
          convState (stateAt cfg lines k) = ConvState.Idle ∧
          convState (stateAt cfg lines (k + 1)) = ConvState.AwaitingResponse ∧
          ∃ now' msg', lines[k]? = some (now', msg') ∧
            contains_callsign msg' cfg = true) ∧
    (∀ n, convState (stateAt cfg lines n) = ConvState.Idle →
      convState (stateAt cfg lines (n + 1)) ≠ ConvState.Active) := by
  constructor
  · intro n h
    obtain ⟨i, hi, hawait, hact, hline, hvalid⟩ :=
      active_has_awaiting_transition cfg lines n h
    obtain ⟨k, hk, hrest⟩ := awaiting_has_idle_transition cfg lines i hawait
    exact ⟨i, hi, hawait, hact, ⟨hline, hvalid⟩, k, hk, hrest⟩
  · intro n hidle hact
    rw [stateAt_succ] at hact
    cases hl : lines[n]? with
    | none =>
      rw [hl] at hact
      rw [hidle] at hact
      exact absurd hact (by simp)
    | some a =>
      obtain ⟨now, msg⟩ := a
      rw [hl] at hact
      rcases step_to_active cfg _ now msg hact with hprev | ⟨hawait, _⟩
      · rw [hidle] at hprev
        exact absurd hprev (by simp)
      · rw [hidle] at hawait
        exact absurd hawait (by simp)

/-- C7 witness: in Scenario A the Active state reached after three
lines is preceded by the AwaitingResponse-to-Active transition at line
3 and the Idle-to-AwaitingResponse transition at line 1. -/
theorem claim_C7_witness :
    ∃ i, i < 3 ∧
      convState (stateAt ⟨true, "W1ABC"⟩
        [((0 : Int), "CQ CQ DE W1ABC"), (2, "QRL?"), (4, "W1ABC DE K2XYZ")] i)
        = ConvState.AwaitingResponse ∧
      convState (stateAt ⟨true, "W1ABC"⟩
        [((0 : Int), "CQ CQ DE W1ABC"), (2, "QRL?"), (4, "W1ABC DE K2XYZ")]
        (i + 1)) = ConvState.Active ∧
      (∃ now msg,
        [((0 : Int), "CQ CQ DE W1ABC"), (2, "QRL?"),
          (4, "W1ABC DE K2XYZ")][i]? = some (now, msg) ∧
        is_valid_response msg ⟨true, "W1ABC"⟩ = true) ∧
      ∃ k, k < i ∧
        convState (stateAt ⟨true, "W1ABC"⟩
          [((0 : Int), "CQ CQ DE W1ABC"), (2, "QRL?"), (4, "W1ABC DE K2XYZ")]
          k) = ConvState.Idle ∧
        convState (stateAt ⟨true, "W1ABC"⟩
          [((0 : Int), "CQ CQ DE W1ABC"), (2, "QRL?"), (4, "W1ABC DE K2XYZ")]
          (k + 1)) = ConvState.AwaitingResponse ∧
        ∃ now' msg',
          [((0 : Int), "CQ CQ DE W1ABC"), (2, "QRL?"),
            (4, "W1ABC DE K2XYZ")][k]? = some (now', msg') ∧
          contains_callsign msg' ⟨true, "W1ABC"⟩ = true :=
  (claim_C7 ⟨true, "W1ABC"⟩
    [((0 : Int), "CQ CQ DE W1ABC"), (2, "QRL?"), (4, "W1ABC DE K2XYZ")]
    rfl).1 3 (by decide)

/-- C10: with filtering enabled but an empty configured call sign, the
machine never leaves Idle and never prints. -/
theorem claim_C10 (cfg : Config) (lines : List (Int × String))
    (hf : cfg.filter_enabled = true) (hcs : cfg.call_sign = "") :
    (run cfg initState lines).2 = [] ∧
    ∀ n, convState (stateAt cfg lines n) = ConvState.Idle := by
  constructor
  · exact (idle_run_aux cfg hf hcs lines initState rfl rfl).1
  · intro n
    have := idle_run_aux cfg hf hcs (lines.take n) initState rfl rfl
    rw [convState_idle_iff]
    exact ⟨this.2.1, this.2.2⟩

/-- With filtering enabled, after processing each line of a
time-ordered tail ending at `(now, msg)`, the retained buffer entries
are all within the window of `now`. -/
theorem run_fresh_aux (cfg : Config) (hf : cfg.filter_enabled = true)
    (now : Int) (msg : String) :
    ∀ (l1 : List (Int × String)) (st : MachineState) (t : Int),
      BufferWF st.rolling_buffer t →
      (l1 ++ [(now, msg)]).Pairwise (fun a b => a.1 ≤ b.1) →
      (∀ e ∈ l1 ++ [(now, msg)], t ≤ e.1) →
      ∀ e ∈ (run cfg st (l1 ++ [(now, msg)])).1.rolling_buffer,
        now - e.1 ≤ ROLLING_WINDOW := by
  intro l1
  induction l1 with
  | nil =>
    intro st t hwf _ hbound
    have hrun : (run cfg st ([] ++ [(now, msg)])).1
        = (process_line cfg st now msg).1 := by
      simp [run]
    rw [hrun]
    exact (bufferWF_step cfg st now msg hf t hwf
      (hbound (now, msg) (by simp))).2
  | cons a l1 ih =>
    intro st t hwf hpw hbound
    obtain ⟨t0, m0⟩ := a
    rw [List.cons_append, List.pairwise_cons] at hpw
    have hst' := bufferWF_step cfg st t0 m0 hf t hwf
      (hbound (t0, m0) (by simp))
    have hrun : (run cfg st (((t0, m0) :: l1) ++ [(now, msg)])).1
        = (run cfg (process_line cfg st t0 m0).1 (l1 ++ [(now, msg)])).1 := by
      simp [run]
    rw [hrun]
    exact ih (process_line cfg st t0 m0).1 t0 hst'.1 hpw.2
      (fun e he => hpw.1 e he)

/-- C5: with filtering enabled and non-decreasing timestamps, after
each line `(now, msg)` is processed every entry still in the rolling
buffer is at most `ROLLING_WINDOW` seconds old relative to `now`
(equivalently, entries older than the window have been evicted). -/
theorem claim_C5 (cfg : Config) (lines : List (Int × String))
    (hf : cfg.filter_enabled = true)
    (hchain : List.Chain' (fun a b => a.1 ≤ b.1) lines) :
    ∀ (l1 : List (Int × String)) (now : Int) (msg : String)
      (l2 : List (Int × String)),
      lines = l1 ++ (now, msg) :: l2 →
      ∀ e ∈ (run cfg initState (l1 ++ [(now, msg)])).1.rolling_buffer,
        now - e.1 ≤ ROLLING_WINDOW := by
  haveI : IsTrans (Int × String) (fun a b => a.1 ≤ b.1) :=
    ⟨fun _ _ _ hab hbc => le_trans hab hbc⟩
  have hpair : lines.Pairwise (fun a b => a.1 ≤ b.1) :=
    List.chain'_iff_pairwise.mp hchain
  intro l1 now msg l2 hsplit
  subst hsplit
  have hsub : (l1 ++ [(now, msg)]).Sublist (l1 ++ (now, msg) :: l2) :=
    List.Sublist.append_left
      (List.singleton_sublist.mpr (List.mem_cons_self _ _)) l1
  have hpw := List.Pairwise.sublist hsub hpair
  cases l1 with
  | nil =>
    apply run_fresh_aux cfg hf now msg [] initState now (bufferWF_nil now) hpw
    intro e he
    simp only [List.nil_append, List.mem_singleton] at he
    subst he
    exact le_refl _
  | cons a l1' =>
    apply run_fresh_aux cfg hf now msg (a :: l1') initState a.1
      (bufferWF_nil a.1) hpw
    intro e he
    rw [List.cons_append, List.mem_cons] at he
    rcases he with rfl | he
    · exact le_refl _
    · rw [List.cons_append, List.pairwise_cons] at hpw
      exact hpw.1 e he

/-- C5 witness (Scenario C): a line buffered at t=0 is gone once a line
arrives at t=20; the buffer then holds only the t=20 entry, which is
within the window. -/
theorem claim_C5_witness :
    (run ⟨true, "W1ABC"⟩ initState
      [((0 : Int), "CQ CQ DE W1ABC"), (20, "QRL?")]).1.rolling_buffer
      = [((20 : Int), "QRL?")] ∧
    (20 : Int) - ((20 : Int), "QRL?").1 ≤ ROLLING_WINDOW :=
  ⟨by decide,
   claim_C5 ⟨true, "W1ABC"⟩ [((0 : Int), "CQ CQ DE W1ABC"), (20, "QRL?")]
     rfl (List.chain'_cons.mpr ⟨by norm_num, List.chain'_singleton _⟩)
     [((0 : Int), "CQ CQ DE W1ABC")] 20 "QRL?" [] rfl
     ((20 : Int), "QRL?") (by decide)⟩

/-- C6: in AwaitingResponse with filtering enabled, the machine moves
to Active and prints exactly when the extracted callsigns minus the
configured target are non-empty; when that set is empty it stays in
AwaitingResponse and prints nothing; and the target callsign itself is
never in the foreign-call set. -/
theorem claim_C6 (cfg : Config) (st : MachineState) (now : Int) (msg : String)
    (hf : cfg.filter_enabled = true)
    (ha : convState st = ConvState.AwaitingResponse) :
    ((convState (process_line cfg st now msg).1 = ConvState.Active ∧
        (process_line cfg st now msg).2 ≠ []) ↔
      foreign_calls msg cfg ≠ []) ∧
    (foreign_calls msg cfg = [] →
      convState (process_line cfg st now msg).1 = ConvState.AwaitingResponse ∧
      (process_line cfg st now msg).2 = []) ∧
    cfg.call_sign ∉ foreign_calls msg cfg := by
  rw [convState_awaiting_iff] at ha
  obtain ⟨hp, hw⟩ := ha
  have hnotmem : cfg.call_sign ∉ foreign_calls msg cfg := by
    intro hmem
    rw [foreign_calls, List.mem_filter] at hmem
    simp at hmem
  cases hv : is_valid_response msg cfg with
  | false =>
    have hempty : foreign_calls msg cfg = [] := by
      rw [is_valid_response, Bool.not_eq_false'] at hv
      exact List.isEmpty_iff.mp hv
    refine ⟨?_, fun _ => ?_, hnotmem⟩
    · simp [process_line, hf, hp, hw, hv, convState, hempty]
    · constructor
      · simp [process_line, hf, hp, hw, hv, convState]
      · simp [process_line, hf, hp, hw, hv]
  | true =>
    have hne : foreign_calls msg cfg ≠ [] := by
      rw [is_valid_response, Bool.not_eq_true'] at hv
      intro hnil
      rw [hnil] at hv
      simp at hv
    refine ⟨?_, fun hempty => absurd hempty hne, hnotmem⟩
    simp [process_line, hf, hp, hw, hv, convState, hne]

/-- C6 witness (Scenario D): with target "W1ABC", the line
"W1ABC W1ABC" has an empty foreign-call set, the machine stays in
AwaitingResponse and nothing is printed. -/
theorem claim_C6_witness :
    foreign_calls "W1ABC W1ABC" ⟨true, "W1ABC"⟩ = [] ∧
    convState (process_line ⟨true, "W1ABC"⟩
      ⟨[((0 : Int), "CQ CQ DE W1ABC")], true, false⟩ 2 "W1ABC W1ABC").1
      = ConvState.AwaitingResponse ∧
    (process_line ⟨true, "W1ABC"⟩
      ⟨[((0 : Int), "CQ CQ DE W1ABC")], true, false⟩ 2 "W1ABC W1ABC").2
      = [] := by
  have h := claim_C6 ⟨true, "W1ABC"⟩
    ⟨[((0 : Int), "CQ CQ DE W1ABC")], true, false⟩ 2 "W1ABC W1ABC" rfl rfl
  exact ⟨by decide, (h.2.1 (by decide)).1, (h.2.1 (by decide)).2⟩

/-- C8: the state transition and buffer update decided for a line are
the same whatever the sink outcomes are, per line and across a whole
run; the attempted actions also coincide with the pure model's. -/
theorem claim_C8 (cfg : Config) (st : MachineState) :
    (∀ (now : Int) (msg : String) (f g : Nat → Bool),
      (process_line_sink cfg st now msg f).1
          = (process_line_sink cfg st now msg g).1 ∧
      (process_line_sink cfg st now msg f).1 = (process_line cfg st now msg).1 ∧
      (process_line_sink cfg st now msg f).2.map Prod.fst
          = (process_line cfg st now msg).2) ∧
    (∀ (lines : List (Int × String)) (F G : Nat → Nat → Bool),
      (run_sink cfg st lines F).1 = (run_sink cfg st lines G).1 ∧
      (run_sink cfg st lines F).1 = (run cfg st lines).1 ∧
      (run_sink cfg st lines F).2.map Prod.fst = (run cfg st lines).2) := by
  have hline : ∀ (st : MachineState) (now : Int) (msg : String) (f : Nat → Bool),
      (process_line_sink cfg st now msg f).1 = (process_line cfg st now msg).1 ∧
      (process_line_sink cfg st now msg f).2.map Prod.fst
        = (process_line cfg st now msg).2 := by
    intro st now msg f
    cases hfe : cfg.filter_enabled <;> cases hp : st.printing_active <;>
      cases hw : st.awaiting_response <;>
      cases hv : is_valid_response msg cfg <;>
      cases ht : is_termination msg <;>
      cases hc : contains_callsign msg cfg <;>
      simp_all [process_line, process_line_sink] <;>
      split_ifs <;> simp
  have hrun : ∀ (lines : List (Int × String)) (st : MachineState)
      (F : Nat → Nat → Bool),
      (run_sink cfg st lines F).1 = (run cfg st lines).1 ∧
      (run_sink cfg st lines F).2.map Prod.fst = (run cfg st lines).2 := by
    intro lines
    induction lines with
    | nil => intro st F; exact ⟨rfl, rfl⟩
    | cons a rest ih =>
      intro st F
      obtain ⟨now, msg⟩ := a
      have h1 := hline st now msg (F 0)
      have h2 := ih (process_line cfg st now msg).1 (fun i => F (i + 1))
      simp only [run_sink, run, h1.1]
      simp [h1.1, h1.2, h2.1, h2.2]
  refine ⟨fun now msg f g => ?_, fun lines F G => ?_⟩
  · exact ⟨(hline st now msg f).1.trans (hline st now msg g).1.symm,
      (hline st now msg f).1, (hline st now msg f).2⟩
  · exact ⟨(hrun lines st F).1.trans (hrun lines st G).1.symm,
      (hrun lines st F).1, (hrun lines st F).2⟩

/-- C9: in AwaitingResponse with filtering enabled, a valid-response
line that does not itself contain the target callsign is printed twice:
once inside the lead-in flush (it was pushed into the buffer before the
response check) and once as the response line. -/
theorem claim_C9 (cfg : Config) (st : MachineState) (now : Int) (msg : String)
    (hf : cfg.filter_enabled = true)
    (ha : convState st = ConvState.AwaitingResponse)
    (hv : is_valid_response msg cfg = true)
    (hnc : contains_callsign msg cfg = false) :
    ∃ ls, (process_line cfg st now msg).2
        = [PrintAction.leadIn ls, PrintAction.line msg] ∧ msg ∈ ls := by
  rw [convState_awaiting_iff] at ha
  obtain ⟨hp, hw⟩ := ha
  have hmsg : msg ∈ ((evict (st.rolling_buffer ++ [(now, msg)]) now).filter
      (fun p => !contains_callsign p.2 cfg)).map (fun p => p.2) := by
    apply List.mem_map.mpr
    refine ⟨(now, msg), ?_, rfl⟩
    apply List.mem_filter.mpr
    exact ⟨evict_last_mem st.rolling_buffer now msg, by simp [hnc]⟩
  have hne : (((evict (st.rolling_buffer ++ [(now, msg)]) now).filter
      (fun p => !contains_callsign p.2 cfg)).map (fun p => p.2)).isEmpty
      = false := by
    rw [Bool.eq_false_iff]
    intro hE
    rw [List.isEmpty_iff] at hE
    rw [hE] at hmsg
    simp at hmsg
  refine ⟨((evict (st.rolling_buffer ++ [(now, msg)]) now).filter
      (fun p => !contains_callsign p.2 cfg)).map (fun p => p.2), ?_, hmsg⟩
  simp [process_line, hf, hp, hw, hv, hne]

/-- C9 witness: with target "W1ABC" and a buffered CQ line, the valid
response "K2XYZ" (which does not contain the target) appears both in
the lead-in flush and as the printed response line. -/
theorem claim_C9_witness :
    ∃ ls, (process_line ⟨true, "W1ABC"⟩
        ⟨[((0 : Int), "CQ CQ DE W1ABC")], true, false⟩ 2 "K2XYZ").2
        = [PrintAction.leadIn ls, PrintAction.line "K2XYZ"] ∧ "K2XYZ" ∈ ls :=
  claim_C9 ⟨true, "W1ABC"⟩ ⟨[((0 : Int), "CQ CQ DE W1ABC")], true, false⟩
    2 "K2XYZ" rfl rfl (by decide) (by decide)

/-- C10 witness: an enabled filter with empty call sign prints nothing
and stays Idle on a concrete two-line input. -/
theorem claim_C10_witness :
    (run ⟨true, ""⟩ initState
      [((0 : Int), "CQ CQ DE W1ABC"), (2, "W1ABC DE K2XYZ")]).2 = [] ∧
    convState (stateAt ⟨true, ""⟩
      [((0 : Int), "CQ CQ DE W1ABC"), (2, "W1ABC DE K2XYZ")] 2)
      = ConvState.Idle :=
  ⟨(claim_C10 ⟨true, ""⟩ _ rfl rfl).1,
   (claim_C10 ⟨true, ""⟩ _ rfl rfl).2 2⟩

end MorsePrinter
